import Mathlib

/-!
Verification of the probability & decision engine of the En Garde client
(`src/lib.rs`, `src/algorithm.rs`, `src/algorithm2.rs`).

Modelling conventions:
* Machine integers (`u8`, `u64`, `usize`, `i64`) are modelled as `ℕ`/`ℤ`;
  where overflow or wrapping can occur and matters, the release-profile
  wrapping semantics is written explicitly (`(a + 2^w - b) % 2^w` for
  subtraction, `% 2^w` for addition).
* Rust panics (out-of-bounds indexing, `.expect(..)` failures, and the
  `Ratio` division by a zero denominator) are modelled as `Except.error`;
  a function returning `Option<T>` in Rust is modelled as
  `Except String (Option T)`, where `.ok none` is Rust's `None` and
  `.error _` is a panic.  The one place where the Lean model cannot raise
  an error is inside pure rational arithmetic: `x / 0 = 0` in `ℚ` while
  `Ratio` division by zero panics in Rust; every theorem that touches this
  case notes it.
* `num_rational::Ratio<u64>` values are modelled as `ℚ` (the quantities
  involved stay far below 2^64, so the exact-rational semantics agree).
-/

/-- Structural decidable equality for `Except`, used to state and check
concrete evaluations of the fallible functions below. -/
instance {ε α : Type} [DecidableEq ε] [DecidableEq α] : DecidableEq (Except ε α) := fun a b =>
  match a, b with
  | .error x, .error y => if h : x = y then .isTrue (by rw [h]) else .isFalse (by simp [h])
  | .error _, .ok _ => .isFalse (by simp)
  | .ok _, .error _ => .isFalse (by simp)
  | .ok x, .ok y => if h : x = y then .isTrue (by rw [h]) else .isFalse (by simp [h])

namespace EnGarde

/-- Card number 1..5 (`CardID` in `src/lib.rs`). -/
inductive CardID
  | One
  | Two
  | Three
  | Four
  | Five
  deriving DecidableEq, Repr

/-- `CardID::denote` — the `u8` representation (`denote_usize` coincides). -/
def CardID.denote : CardID → ℕ
  | .One => 1
  | .Two => 2
  | .Three => 3
  | .Four => 4
  | .Five => 5

/-- `CardID::from_u8` (and `from_usize`, which is identical over `ℕ`). -/
def CardID.from_u8 : ℕ → Option CardID
  | 1 => some .One
  | 2 => some .Two
  | 3 => some .Three
  | 4 => some .Four
  | 5 => some .Five
  | _ => none

/-- `Maisuu` (`src/lib.rs`): a card count clamped to 0..5, a `u8` with the
invariant `≤ 5`; modelled as `Fin 6`. -/
abbrev Maisuu := Fin 6

/-- `Maisuu::denote` / `denote_usize`. -/
def Maisuu.denote (m : Maisuu) : ℕ := m.val

/-- `Maisuu::from_u8` (and `from_usize`): `Some` exactly for values `≤ 5`. -/
def Maisuu.from_u8 (n : ℕ) : Option Maisuu :=
  if h : n ≤ 5 then some ⟨n, by omega⟩ else none

/-- `Maisuu::from_usize`, identical to `from_u8` over `ℕ`. -/
def Maisuu.from_usize (n : ℕ) : Option Maisuu := Maisuu.from_u8 n

def Maisuu.ZERO : Maisuu := ⟨0, by omega⟩
def Maisuu.ONE : Maisuu := ⟨1, by omega⟩
def Maisuu.TWO : Maisuu := ⟨2, by omega⟩
def Maisuu.THREE : Maisuu := ⟨3, by omega⟩
def Maisuu.FOUR : Maisuu := ⟨4, by omega⟩
def Maisuu.FIVE : Maisuu := ⟨5, by omega⟩

/-- `Maisuu::MAX = Maisuu::FIVE`. -/
def Maisuu.MAX : Maisuu := Maisuu.FIVE

/-- `Maisuu::SOKUSHI = Maisuu::THREE`. -/
def Maisuu.SOKUSHI : Maisuu := Maisuu.THREE

/-- `Maisuu::saturating_sub`: `u8::saturating_sub` on the payload, which is
exactly truncated subtraction on `ℕ`. -/
def Maisuu.saturating_sub (a b : Maisuu) : Maisuu :=
  ⟨a.val - b.val, by omega⟩

/-- `Maisuu::saturating_mul`: clamps at 5. -/
def Maisuu.saturating_mul (a : Maisuu) (n : ℕ) : Maisuu :=
  if h : a.val * n ≤ 5 then ⟨a.val * n, by omega⟩ else Maisuu.MAX

/-- `HANDS_DEFAULT_U8` / `HANDS_DEFAULT_U64`. -/
def HANDS_DEFAULT : ℕ := 5

/-- `RestCards` (`src/lib.rs`): the per-slot tally `[Maisuu; 5]`.  Slot `k`
holds the count for card number `k + 1` (see `RestCards::used_card`, which
writes to `self[i - 1]` for a card with `denote` `i`). -/
structure RestCards where
  cards : Fin 5 → Maisuu

/-- `RestCards::new`: all entries `Maisuu::MAX`. -/
def RestCards.new : RestCards := ⟨fun _ => Maisuu.MAX⟩

/-- `RestCards::from_slice` on a 5-element slice, written with the five
entries explicit. -/
def RestCards.mk5 (a b c d e : Maisuu) : RestCards :=
  ⟨fun i => match i with
    | ⟨0, _⟩ => a
    | ⟨1, _⟩ => b
    | ⟨2, _⟩ => c
    | ⟨3, _⟩ => d
    | ⟨4, _⟩ => e⟩

/-- The `Index<usize>` impl on `RestCards`: `self.cards.get(index).expect("out
of bound")` — panics (here: errors) for `index ≥ 5`. -/
def RestCards.idx (r : RestCards) (i : ℕ) : Except String Maisuu :=
  if h : i < 5 then .ok (r.cards ⟨i, h⟩) else .error "out of bound"

/-- Total-function view of a `RestCards` slot, used only to state theorems
(the code itself goes through the panicking `RestCards.idx`). -/
def RestCards.entry (r : RestCards) (i : ℕ) : Maisuu :=
  if h : i < 5 then r.cards ⟨i, h⟩ else Maisuu.ZERO

/-- `Direction` (`src/lib.rs`). -/
inductive Direction
  | Forward
  | Back
  deriving DecidableEq, Repr

/-- `Movement` (`src/lib.rs`). -/
structure Movement where
  card : CardID
  direction : Direction
  deriving DecidableEq, Repr

/-- `Attack` (`src/lib.rs`). -/
structure Attack where
  card : CardID
  quantity : Maisuu
  deriving DecidableEq, Repr

/-- `Action` (`src/lib.rs`). -/
inductive Action
  | Move (m : Movement)
  | Attack (a : Attack)
  deriving DecidableEq, Repr

/-- `Action::get_movement`. -/
def Action.get_movement : Action → Option Movement
  | .Move m => some m
  | .Attack _ => none

/-! ## `src/algorithm.rs` -/

/-- `permutation` (`src/algorithm.rs`): `0` if `n < r`, else the product
`(n-r+1) * … * n`. -/
def permutation (n r : ℕ) : ℕ :=
  if n < r then 0 else ∏ i ∈ Finset.Icc (n - r + 1) n, i

/-- `combination` (`src/algorithm.rs`): `permutation n r / (1 * … * r)`
(truncating integer division, as in Rust). -/
def combination (n r : ℕ) : ℕ :=
  permutation n r / ∏ i ∈ Finset.Icc 1 r, i

/-- `probability` (`src/algorithm.rs`): the list, indexed by `r = 0..5`, of
`C(5,r)·Perm(target,r)·Perm(total−target,5−r) / Perm(total,5)` as an exact
rational.  In Rust the division is on `Ratio<u64>` and panics when
`Perm(total,5) = 0` (possible only for a wrapped-around total `< 5`); in `ℚ`
that division yields `0` instead — the theorems below treat that case
explicitly. -/
def probability (target_unvisible_cards : Maisuu) (total_unvisible_cards : ℕ) :
    Fin 6 → ℚ := fun r =>
  ((combination 5 r.val * permutation target_unvisible_cards.denote r.val *
      permutation (total_unvisible_cards - target_unvisible_cards.denote) (5 - r.val) : ℕ) : ℚ) /
    ((permutation total_unvisible_cards 5 : ℕ) : ℚ)

/-- `ProbabilityTable` (`src/algorithm.rs`): for each card number, the
distribution over how many copies (0..5) the opponent holds. -/
structure ProbabilityTable where
  card1 : Fin 6 → ℚ
  card2 : Fin 6 → ℚ
  card3 : Fin 6 → ℚ
  card4 : Fin 6 → ℚ
  card5 : Fin 6 → ℚ

/-- `ProbabilityTable::new`: `total_unvisible_cards = num_of_deck +
HANDS_DEFAULT_U8` is a `u8` addition, so it wraps modulo 256 (release
profile; in debug it would panic for `num_of_deck > 250`). -/
def ProbabilityTable.new (num_of_deck : ℕ) (cards : RestCards) : ProbabilityTable :=
  let total_unvisible_cards := (num_of_deck + HANDS_DEFAULT) % 256
  { card1 := probability (cards.cards 0) total_unvisible_cards
    card2 := probability (cards.cards 1) total_unvisible_cards
    card3 := probability (cards.cards 2) total_unvisible_cards
    card4 := probability (cards.cards 3) total_unvisible_cards
    card5 := probability (cards.cards 4) total_unvisible_cards }

/-- `ProbabilityTable::access`: `quantity.denote()` is `< 6`, so the array
access is always in bounds. -/
def ProbabilityTable.access (t : ProbabilityTable) (card : CardID) (quantity : Maisuu) : ℚ :=
  match card with
  | .One => t.card1 quantity
  | .Two => t.card2 quantity
  | .Three => t.card3 quantity
  | .Four => t.card4 quantity
  | .Five => t.card5 quantity

/-- Per-rank view of a `ProbabilityTable` (rank `i` ↦ `card(i+1)`), used only
to state theorems. -/
def ProbabilityTable.rank (t : ProbabilityTable) : Fin 5 → Fin 6 → ℚ :=
  ![t.card1, t.card2, t.card3, t.card4, t.card5]

/-- `card_map_from_hands` (`src/algorithm.rs`): count, for each card number
1..5 in order, its occurrences in `hands`; `None` as soon as one count
exceeds 5.  (The Rust `try_into` to `[Maisuu; 5]` always succeeds on the
5-element result and is dropped here.) -/
def card_map_from_hands (hands : List CardID) : Option (List Maisuu) :=
  [CardID.One, CardID.Two, CardID.Three, CardID.Four, CardID.Five].mapM
    (fun x => Maisuu.from_usize (hands.filter (fun y => decide (x = y))).length)

/-- `hands_from_card_map` (`src/algorithm.rs`): for `i = 0..4`, pair
`CardID::from_u8(i)` (skipping `i = 0`, where it is `None`) with
`card_map.get(i)` and expand to that many repeated cards; the final
`try_into::<[CardID; 5]>` succeeds only when exactly 5 cards were produced. -/
def hands_from_card_map (card_map : List Maisuu) : Option (List CardID) :=
  let l := ((List.range 5).filterMap (fun i =>
    (CardID.from_u8 i).bind (fun c =>
      card_map[i]?.map (fun m => List.replicate m.denote c)))).flatten
  if l.length = 5 then some l else none

/-- The occurrence count used by `HandsUtil::count_cards` and the guards of
the evaluators. -/
def handCount (hands : List CardID) (card_id : CardID) : ℕ :=
  (hands.filter (fun i => decide (i = card_id))).length

/-- `HandsUtil::count_cards`: `Maisuu::from_usize(count).expect(..)` — panics
(errors) when a card occurs more than 5 times. -/
def count_cards (hands : List CardID) (card_id : CardID) : Except String Maisuu :=
  match Maisuu.from_usize (handCount hands card_id) with
  | some m => .ok m
  | none => .error "not within Maisuu bounds"

/-- `check_twice` (`src/algorithm.rs`): `distance - (i * 2) == 0` on `u8`,
written with wrapping subtraction (for `distance < 256` and `i ≤ 5` this is
the release-profile behaviour; debug would panic when `distance < 2 * i`). -/
def check_twice (distance i : ℕ) : Bool :=
  (distance + 256 - i * 2) % 256 == 0

/-- `calc_possibility_attack` (`src/algorithm.rs`): sums
`table.access(card_num, k)` for `k ∈ {0,1,2,3}` with `hands[card_num.denote()]
≥ k`.  Note the index is `card_num.denote()` (1-based), not `denote() - 1`: for
`CardID::Five` the access `hands[5]` on the 5-slot map panics (errors). -/
def calc_possibility_attack (hands : List Maisuu) (table : ProbabilityTable)
    (card_num : CardID) : Except String ℚ :=
  match hands[card_num.denote]? with
  | none => .error "index out of bounds"
  | some h =>
    .ok (([Maisuu.ZERO, Maisuu.ONE, Maisuu.TWO, Maisuu.SOKUSHI].map
      (fun enemy_quant =>
        if enemy_quant ≤ h then table.access card_num enemy_quant else 0)).sum)

/-- `calc_possibility_move` (`src/algorithm.rs`): as `calc_possibility_attack`
but over `k ∈ {1,2,3}` and with one copy subtracted when `dup` holds.  (The
Rust code indexes `hands` and applies `saturating_sub` inside each loop
iteration; the values are identical each time, so they are hoisted here.) -/
def calc_possibility_move (hands : List Maisuu) (table : ProbabilityTable)
    (card_num : CardID) (dup : Bool) : Except String ℚ :=
  match hands[card_num.denote]? with
  | none => .error "index out of bounds"
  | some h0 =>
    let h := h0.saturating_sub (if dup then Maisuu.ONE else Maisuu.ZERO)
    .ok (([Maisuu.ONE, Maisuu.TWO, Maisuu.SOKUSHI].map
      (fun i => if i ≤ h then table.access card_num i else 0)).sum)

/-- `safe_possibility` (`src/algorithm.rs`).  Return type: `.ok none` models
Rust's `None` (malformed hand), `.error` models a panic.  Note that every
branch indexes `rest_cards[card.denote()]` — 1-based into the 0-based 5-slot
array — so any action on `CardID::Five` panics, and the `u8` subtractions
`distance - card.denote()` (and `check_twice`) wrap. -/
def safe_possibility (distance : ℕ) (rest_cards : RestCards) (hands : List CardID)
    (table : ProbabilityTable) (action : Action) : Except String (Option ℚ) :=
  match action with
  | Action.Attack attack =>
    match rest_cards.idx attack.card.denote with
    | .error e => .error e
    | .ok rc =>
      match count_cards hands attack.card with
      | .error e => .error e
      | .ok cnt =>
        if rc ≤ cnt then .ok (some 1)
        else
          match card_map_from_hands hands with
          | none => .ok none
          | some m =>
            match calc_possibility_attack m table attack.card with
            | .error e => .error e
            | .ok q => .ok (some q)
  | Action.Move movement =>
    match movement.direction with
    | Direction.Forward =>
      let card := movement.card
      let dup := check_twice distance card.denote
      match rest_cards.idx card.denote with
      | .error e => .error e
      | .ok rc =>
        match count_cards hands card with
        | .error e => .error e
        | .ok cnt =>
          if rc ≤ cnt.saturating_sub (if dup then Maisuu.ONE else Maisuu.ZERO) then
            .ok (some 1)
          else
            match CardID.from_u8 ((distance + 256 - card.denote) % 256) with
            | some card_id =>
              match card_map_from_hands hands with
              | none => .ok none
              | some m =>
                match calc_possibility_move m table card_id dup with
                | .error e => .error e
                | .ok q => .ok (some q)
            | none => .ok (some 0)
    | Direction.Back =>
      let card := movement.card
      match rest_cards.idx card.denote with
      | .error e => .error e
      | .ok rc =>
        match count_cards hands card with
        | .error e => .error e
        | .ok cnt =>
          if rc ≤ cnt then .ok (some 1)
          else
            match CardID.from_u8 ((distance + card.denote) % 256) with
            | some card_id =>
              match card_map_from_hands hands with
              | none => .ok none
              | some m =>
                match calc_possibility_move m table card_id false with
                | .error e => .error e
                | .ok q => .ok (some q)
            | none => .ok (some 0)

/-- The inner `calc_win_possibility` of `win_poss_attack`
(`src/algorithm.rs`): like `calc_possibility_attack` but requiring the held
count to be strictly greater than the opponent quantity. -/
def calc_win_possibility (hands : List Maisuu) (table : ProbabilityTable)
    (card_num : CardID) : Except String ℚ :=
  match hands[card_num.denote]? with
  | none => .error "index out of bounds"
  | some h =>
    .ok (([Maisuu.ZERO, Maisuu.ONE, Maisuu.TWO, Maisuu.SOKUSHI].map
      (fun enemy_quant =>
        if enemy_quant < h then table.access card_num enemy_quant else 0)).sum)

/-- `win_poss_attack` (`src/algorithm.rs`). -/
def win_poss_attack (rest_cards : RestCards) (hands : List CardID)
    (table : ProbabilityTable) (action : Action) : Except String (Option ℚ) :=
  match action with
  | Action.Attack attack =>
    match rest_cards.idx attack.card.denote with
    | .error e => .error e
    | .ok rc =>
      match count_cards hands attack.card with
      | .error e => .error e
      | .ok cnt =>
        if rc < cnt then .ok (some 1)
        else
          match card_map_from_hands hands with
          | none => .ok none
          | some m =>
            match calc_win_possibility m table attack.card with
            | .error e => .error e
            | .ok w => .ok (some w)
  | Action.Move _ => .ok (some 0)

/-- `i64` subtraction with release-profile wrapping. -/
def wrapI64 (z : ℤ) : ℤ := (z + 2 ^ 63) % 2 ^ 64 - 2 ^ 63

/-- `last_move` (`src/algorithm.rs`).  `hands` is the per-slot count table
(`&[Maisuu]`).  The `attack_action` is built before `can_attack` is tested,
so its index `hands[distance]` (one past the slot `distance - 1` used for
`can_attack`) is evaluated unconditionally once `check_last` holds. -/
def last_move (restcards : RestCards) (hands : List Maisuu) (position : ℤ × ℤ)
    (parried_quant : ℕ) (table : ProbabilityTable) : Except String (Option ℕ) :=
  let last := (∑ i : Fin 5, (restcards.cards i).denote) ≤ (1 + parried_quant) % 256
  if last then
    let distance := wrapI64 (position.1 - position.2)
    if distance < 0 then .error "not within usize bounds"
    else
      let d := distance.toNat
      match hands[(d + 2 ^ 64 - 1) % 2 ^ 64]? with
      | none => .error "index out of bounds"
      | some h1 =>
        let can_attack := h1 ≠ Maisuu.ZERO
        if 255 < d then .error "not within u8 bounds"
        else
          match CardID.from_u8 d with
          | none => .error "not within CardID bounds"
          | some c =>
            match hands[d]? with
            | none => .error "index out of bounds"
            | some q =>
              let attack_action := Action.Attack ⟨c, q⟩
              if can_attack then
                match hands_from_card_map hands with
                | none => .ok none
                | some h' =>
                  match win_poss_attack restcards h' table attack_action with
                  | .error e => .error e
                  | .ok none => .ok none
                  | .ok (some w) => .ok (if w = 1 then some d else none)
              else .ok none
  else .ok none

/-! ## `src/algorithm2.rs` -/

/-- `AcceptableNumbers` (`src/algorithm2.rs`): the 5-slot gate.  Indexing is
always performed with an index `< 5` in the sources modelled here, so the
list access uses a default that is never reached. -/
structure AcceptableNumbers where
  can_use : List Bool

/-- The `Index<usize>` impl on `AcceptableNumbers` (all call sites use
indices `< 5`). -/
def AcceptableNumbers.idx (a : AcceptableNumbers) (i : ℕ) : Bool :=
  a.can_use.getD i false

/-- `count_4and5` (`src/algorithm2.rs`): sums `hands[i.denote_usize() - 1]`
for `i ∈ {THREE, FOUR, FIVE}` — i.e. slots 2, 3, 4, the counts of card
numbers 3, 4 and 5, despite the name and its doc comment. -/
def count_4and5 (hands : List Maisuu) : ℕ :=
  (([Maisuu.THREE, Maisuu.FOUR, Maisuu.FIVE]).map
    (fun i => (hands.getD (i.denote - 1) Maisuu.ZERO).denote)).sum

/-- `AcceptableNumbers::can_use4and5`. -/
def AcceptableNumbers.can_use4and5 (hands : List Maisuu) (distance : ℕ) : Bool :=
  if 12 ≤ distance then decide (2 ≤ count_4and5 hands) else true

/-- `AcceptableNumbers::can_use3`. -/
def AcceptableNumbers.can_use3 (hands : List Maisuu) : Bool :=
  decide (Maisuu.ZERO < hands.getD 2 Maisuu.ZERO)

/-- `AcceptableNumbers::can_use2`. -/
def AcceptableNumbers.can_use2 (hands : List Maisuu) : Bool :=
  decide (Maisuu.ONE < hands.getD 1 Maisuu.ZERO)

/-- `AcceptableNumbers::can_use1`. -/
def AcceptableNumbers.can_use1 (hands : List Maisuu) (rest : RestCards) : Bool :=
  let usedcard_1 := Maisuu.FIVE.saturating_sub (rest.cards 0)
  decide (Maisuu.THREE.saturating_sub usedcard_1 < hands.getD 0 Maisuu.ZERO)

/-- `AcceptableNumbers::new`. -/
def AcceptableNumbers.new (hands : List Maisuu) (rest : RestCards) (distance : ℕ) :
    AcceptableNumbers :=
  ⟨[AcceptableNumbers.can_use1 hands rest,
    AcceptableNumbers.can_use2 hands,
    AcceptableNumbers.can_use3 hands,
    AcceptableNumbers.can_use4and5 hands distance,
    AcceptableNumbers.can_use4and5 hands distance]⟩

/-- `calc_ave` (`src/algorithm2.rs`): average over the five slots as an exact
rational (the `u8` sum is at most 25, no overflow). -/
def calc_ave (hands : List Maisuu) : ℚ :=
  ((((List.range 5).map (fun i => (hands.getD i Maisuu.ZERO).denote)).sum : ℕ) : ℚ) / 5

/-- `initial_move` (`src/algorithm2.rs`): `Err` exactly when `distance ≤ 12`;
otherwise scan slots 4,3,2,1,0 (the Rust `for i in (0..5).rev()`, modelled as
`find?` on the reversed range, which likewise returns at the first hit); the
fallback plays card 2 Forward only when additionally a card 2 is held. -/
def initial_move (hands : List Maisuu) (distance : ℕ) (acceptable : AcceptableNumbers) :
    Except String Action :=
  if distance ≤ 12 then .error "cannot use this function when distance is at most 12"
  else
    match (List.range 5).reverse.find?
        (fun i => acceptable.idx i && decide (0 < (hands.getD i Maisuu.ZERO).denote)) with
    | some i =>
      match CardID.from_u8 (i + 1) with
      | some c => .ok (Action.Move ⟨c, Direction.Forward⟩)
      | none => .error "no idea why"
    | none =>
      if calc_ave hands < 3 ∧ 0 < (hands.getD (Maisuu.TWO.denote - 1) Maisuu.ZERO).denote then
        match CardID.from_u8 2 with
        | some c => .ok (Action.Move ⟨c, Direction.Forward⟩)
        | none => .error "no idea why"
      else
        match CardID.from_u8 5 with
        | some c => .ok (Action.Move ⟨c, Direction.Forward⟩)
        | none => .error "no idea why"

/-- `action_togo` (`src/algorithm2.rs`): the `match n.cmp(&distance)` written
as an `if` chain; the `u8` subtractions cannot wrap in their branches. -/
def action_togo (n distance : ℕ) : Option Action :=
  if distance < n then
    (CardID.from_u8 (n - distance)).map (fun c => Action.Move ⟨c, Direction.Back⟩)
  else if n < distance then
    (CardID.from_u8 (distance - n)).map (fun c => Action.Move ⟨c, Direction.Forward⟩)
  else none

/-- The candidate test repeated for `togo7` and `togo2` inside
`should_go_2_7`: held, Forward, and gate-allowed. -/
def sg27Check (hands : List Maisuu) (acceptable : AcceptableNumbers)
    (mv : Option Movement) : Bool :=
  match mv with
  | some movement =>
    decide (hands.getD (movement.card.denote - 1) Maisuu.ZERO ≠ Maisuu.ZERO) &&
      decide (movement.direction = Direction.Forward) &&
      acceptable.idx (movement.card.denote - 1)
  | none => false

/-- `should_go_2_7` (`src/algorithm2.rs`). -/
def should_go_2_7 (hands : List Maisuu) (distance : ℕ) (rest : RestCards)
    (_table : ProbabilityTable) : Option Action :=
  let acceptable := AcceptableNumbers.new hands rest distance
  let togo7 := action_togo 7 distance
  let togo2 := action_togo 2 distance
  if sg27Check hands acceptable (togo7.bind Action.get_movement) then togo7
  else if sg27Check hands acceptable (togo2.bind Action.get_movement) then togo2
  else none

/-- `middle_move` (`src/algorithm2.rs`).  `.ok none` is Rust's `None`,
`.error` a panic.  Mirrors the source's evaluation order: the attack
candidate and its `win_poss_attack` filter run first (panicking for
`distance = 0` on `CardID::from_u8(distance).expect(..)` and for
`distance = 5` inside `win_poss_attack` via `rest_cards[5]`), then the
`?`-propagated `should_go_2_7` / `safe_possibility` stage, which returns
`None` for the whole function even when the attack qualified. -/
def middle_move (hands : List CardID) (distance : ℕ) (rest : RestCards)
    (table : ProbabilityTable) : Except String (Option Action) :=
  (if distance ≤ 5 then
    match CardID.from_u8 distance with
    | none => Except.error "not within CardID bounds"
    | some c =>
      match card_map_from_hands hands with
      | none => Except.ok none
      | some m =>
        match m[distance - 1]? with
        | none => Except.error "index out of bounds"
        | some q => Except.ok (some (Action.Attack ⟨c, q⟩))
  else Except.ok none).bind (fun att0 =>
    (match att0 with
     | none => Except.ok none
     | some a =>
       (win_poss_attack rest hands table a).map (fun w? =>
         match w? with
         | none => none
         | some w => if (3 : ℚ) / 4 ≤ w then some a else none)).bind (fun att1 =>
      match card_map_from_hands hands with
      | none => Except.ok none
      | some m2 =>
        match should_go_2_7 m2 distance rest table with
        | none => Except.ok none
        | some mov =>
          (safe_possibility distance rest hands table mov).bind (fun s? =>
            match s? with
            | none => Except.ok none
            | some s =>
              Except.ok (att1.or (if (3 : ℚ) / 4 ≤ s then some mov else none)))))

/-! ## Helper definitions for stating the theorems, and concrete inputs -/

/-- The opponent rank implied by a Move, as the code computes it: `distance −
rank` (`u8` wrapping) for Forward, `distance + rank` (`u8` wrapping) for
Back. -/
def moveWrapTarget (distance : ℕ) (mv : Movement) : ℕ :=
  match mv.direction with
  | .Forward => (distance + 256 - mv.card.denote) % 256
  | .Back => (distance + mv.card.denote) % 256

/-- The "all unseen copies accounted for" guard of `safe_possibility` on a
Move, written over `ℕ` (it reads slot `card.denote()` of `RestCards`, and
subtracts one held copy when `check_twice` holds on a Forward move). -/
def safeMoveGuard (distance : ℕ) (rest : RestCards) (hands : List CardID)
    (mv : Movement) : Prop :=
  match mv.direction with
  | .Forward => (rest.entry mv.card.denote).denote ≤
      handCount hands mv.card - (if check_twice distance mv.card.denote then 1 else 0)
  | .Back => (rest.entry mv.card.denote).denote ≤ handCount hands mv.card

/-- The scan condition of `initial_move`: slot `i` is gate-allowed and held. -/
def initialQualifies (hands : List Maisuu) (acc : AcceptableNumbers) (i : ℕ) : Prop :=
  acc.idx i = true ∧ 0 < (hands.getD i Maisuu.ZERO).denote

instance (distance : ℕ) (rest : RestCards) (hands : List CardID) (mv : Movement) :
    Decidable (safeMoveGuard distance rest hands mv) :=
  match mv with
  | ⟨_, Direction.Forward⟩ => inferInstanceAs (Decidable (_ ≤ _))
  | ⟨_, Direction.Back⟩ => inferInstanceAs (Decidable (_ ≤ _))

instance (hands : List Maisuu) (acc : AcceptableNumbers) (i : ℕ) :
    Decidable (initialQualifies hands acc i) :=
  inferInstanceAs (Decidable (_ ∧ _))

instance (distance : ℕ) (rest : RestCards) (hands : List CardID) (mv : Movement) :
    Decidable (safeMoveGuard distance rest hands mv) :=
  match mv with
  | ⟨_, Direction.Forward⟩ => inferInstanceAs (Decidable (_ ≤ _))
  | ⟨_, Direction.Back⟩ => inferInstanceAs (Decidable (_ ≤ _))

instance (hands : List Maisuu) (acc : AcceptableNumbers) (i : ℕ) :
    Decidable (initialQualifies hands acc i) :=
  inferInstanceAs (Decidable (_ ∧ _))

/-- Concrete hand `[3, 3, 3]`. -/
def hand333 : List CardID := [CardID.Three, CardID.Three, CardID.Three]

/-- Concrete `RestCards` `[5, 5, 3, 5, 5]`: three unseen copies of rank 3. -/
def restA : RestCards :=
  RestCards.mk5 Maisuu.FIVE Maisuu.FIVE Maisuu.THREE Maisuu.FIVE Maisuu.FIVE

/-- Concrete `RestCards` `[5, 5, 5, 2, 5]` (slot 3, the rank-4 slot, is 2 —
which the mis-indexed guard of `win_poss_attack` reads for rank-3 attacks). -/
def restB : RestCards :=
  RestCards.mk5 Maisuu.FIVE Maisuu.FIVE Maisuu.FIVE Maisuu.TWO Maisuu.FIVE

/-- Concrete `RestCards` `[0, 0, 0, 0, 1]`: one unseen card in total. -/
def restLast : RestCards :=
  RestCards.mk5 Maisuu.ZERO Maisuu.ZERO Maisuu.ZERO Maisuu.ZERO Maisuu.ONE

/-- Concrete per-slot count table `[1, 1, 1, 1, 1]` (one of each rank). -/
def mapOnes : List Maisuu :=
  [Maisuu.ONE, Maisuu.ONE, Maisuu.ONE, Maisuu.ONE, Maisuu.ONE]

/-- Concrete per-slot count table `[1, 0, 0, 0, 0]` (a single rank-1 card). -/
def mapOne1 : List Maisuu :=
  [Maisuu.ONE, Maisuu.ZERO, Maisuu.ZERO, Maisuu.ZERO, Maisuu.ZERO]

/-- Concrete per-slot count table `[0, 0, 2, 0, 0]` (two rank-3 cards). -/
def mapTwo3 : List Maisuu :=
  [Maisuu.ZERO, Maisuu.ZERO, Maisuu.TWO, Maisuu.ZERO, Maisuu.ZERO]

/-! ## The spec's hypergeometric formula (§4.1)

`Perm(n,r) = n·(n−1)·…·(n−r+1)` (`0` if `n < r`) is `Nat.descFactorial`, and
`C(n,r) = Perm(n,r)/r!` is `Nat.choose`. -/

/-- Modelled from the spec (§4.1), for comparison with the source's
`probability`:
`P(k) = C(5,k) · Perm(target,k) · Perm(total_unseen_cards − target, 5−k) /
Perm(total_unseen_cards, 5)` with `total_unseen_cards = deck size + 5`. -/
def hypergeomSpec (target deck k : ℕ) : ℚ :=
  ((Nat.choose 5 k * Nat.descFactorial target k *
      Nat.descFactorial (deck + 5 - target) (5 - k) : ℕ) : ℚ) /
    ((Nat.descFactorial (deck + 5) 5 : ℕ) : ℚ)

/-! ## Basic facts about `permutation`, `combination`, `probability` -/

lemma permutation_zero_right (n : ℕ) : permutation n 0 = 1 := by
  unfold permutation
  rw [if_neg (by omega), Finset.Icc_eq_empty (by omega), Finset.prod_empty]

lemma permutation_succ_succ (n r : ℕ) :
    permutation (n + 1) (r + 1) = (n + 1) * permutation n r := by
  by_cases h : n < r
  · unfold permutation
    rw [if_pos (by omega), if_pos h, Nat.mul_zero]
  · unfold permutation
    rw [if_neg (by omega), if_neg h]
    have he : n + 1 - (r + 1) + 1 = n - r + 1 := by omega
    rw [he, Finset.prod_Icc_succ_top (by omega) (fun i => i), Nat.mul_comm]

lemma permutation_eq_descFactorial (n r : ℕ) :
    permutation n r = n.descFactorial r := by
  induction r generalizing n with
  | zero => rw [permutation_zero_right, Nat.descFactorial_zero]
  | succ r ih =>
    cases n with
    | zero =>
      unfold permutation
      rw [if_pos (by omega), Nat.zero_descFactorial_succ]
    | succ m => rw [permutation_succ_succ, ih, Nat.succ_descFactorial_succ]

lemma prod_Icc_one_eq_factorial (r : ℕ) : (∏ i ∈ Finset.Icc 1 r, i) = Nat.factorial r := by
  induction r with
  | zero => rw [Finset.Icc_eq_empty (by omega), Finset.prod_empty, Nat.factorial_zero]
  | succ r ih =>
    rw [Finset.prod_Icc_succ_top (by omega) (fun i => i), ih, Nat.factorial_succ, Nat.mul_comm]

lemma combination_eq_choose (n r : ℕ) : combination n r = n.choose r := by
  unfold combination
  rw [permutation_eq_descFactorial, prod_Icc_one_eq_factorial,
    Nat.choose_eq_descFactorial_div_factorial]

/-- Vandermonde's identity specialised to the hypergeometric numerators: for
`t ≤ T`, the numerators of the six entries sum to the denominator. -/
lemma vandermonde_numerators (t T : ℕ) (h : t ≤ T) :
    ∑ k ∈ Finset.range 6,
        Nat.choose 5 k * Nat.descFactorial t k * Nat.descFactorial (T - t) (5 - k)
      = Nat.descFactorial T 5 := by
  have hsum : ∀ k ∈ Finset.range 6,
      Nat.choose 5 k * Nat.descFactorial t k * Nat.descFactorial (T - t) (5 - k)
        = 120 * (Nat.choose t k * Nat.choose (T - t) (5 - k)) := by
    intro k hk
    have hk5 : k ≤ 5 := by
      have := Finset.mem_range.mp hk
      omega
    have h120 : Nat.choose 5 k * Nat.factorial k * Nat.factorial (5 - k) = 120 := by
      rw [Nat.choose_mul_factorial_mul_factorial hk5]
      decide
    rw [Nat.descFactorial_eq_factorial_mul_choose, Nat.descFactorial_eq_factorial_mul_choose]
    calc Nat.choose 5 k * (Nat.factorial k * Nat.choose t k) *
          (Nat.factorial (5 - k) * Nat.choose (T - t) (5 - k))
        = Nat.choose 5 k * Nat.factorial k * Nat.factorial (5 - k) *
            (Nat.choose t k * Nat.choose (T - t) (5 - k)) := by
          ring
      _ = 120 * (Nat.choose t k * Nat.choose (T - t) (5 - k)) := by rw [h120]
  rw [Finset.sum_congr rfl hsum, ← Finset.mul_sum]
  have hvan : ∑ k ∈ Finset.range 6, Nat.choose t k * Nat.choose (T - t) (5 - k)
      = Nat.choose T 5 := by
    have hv := Nat.add_choose_eq t (T - t) 5
    rw [Nat.add_sub_cancel' h] at hv
    rw [hv, Finset.Nat.sum_antidiagonal_eq_sum_range_succ_mk]
  rw [hvan, Nat.descFactorial_eq_factorial_mul_choose]
  norm_num [Nat.factorial]

lemma probability_nonneg (t : Maisuu) (T : ℕ) (k : Fin 6) :
    0 ≤ probability t T k := by
  unfold probability
  exact div_nonneg (Nat.cast_nonneg _) (Nat.cast_nonneg _)

lemma probability_sum_eq_one (t : Maisuu) (T : ℕ) (hT : 5 ≤ T) :
    ∑ k : Fin 6, probability t T k = 1 := by
  have ht5 : t.denote ≤ 5 := Nat.lt_succ_iff.mp t.isLt
  have htT : t.denote ≤ T := le_trans ht5 hT
  have hD : (Nat.descFactorial T 5) ≠ 0 := by
    rw [Ne, Nat.descFactorial_eq_zero_iff_lt]
    omega
  have hDq : ((Nat.descFactorial T 5 : ℕ) : ℚ) ≠ 0 := by exact_mod_cast hD
  have hpe : ∀ k : Fin 6, probability t T k
      = ((Nat.choose 5 k.val * Nat.descFactorial t.denote k.val *
          Nat.descFactorial (T - t.denote) (5 - k.val) : ℕ) : ℚ) /
        ((Nat.descFactorial T 5 : ℕ) : ℚ) := by
    intro k
    unfold probability
    rw [combination_eq_choose, permutation_eq_descFactorial, permutation_eq_descFactorial,
      permutation_eq_descFactorial]
  calc ∑ k : Fin 6, probability t T k
      = ∑ k ∈ Finset.range 6,
          ((Nat.choose 5 k * Nat.descFactorial t.denote k *
            Nat.descFactorial (T - t.denote) (5 - k) : ℕ) : ℚ) /
          ((Nat.descFactorial T 5 : ℕ) : ℚ) := by
        rw [← Fin.sum_univ_eq_sum_range]
        exact Finset.sum_congr rfl (fun k _ => hpe k)
    _ = ((∑ k ∈ Finset.range 6,
          Nat.choose 5 k * Nat.descFactorial t.denote k *
            Nat.descFactorial (T - t.denote) (5 - k) : ℕ) : ℚ) /
          ((Nat.descFactorial T 5 : ℕ) : ℚ) := by
        rw [← Finset.sum_div, Nat.cast_sum]
    _ = 1 := by
        rw [vandermonde_numerators t.denote T htT, div_self hDq]

lemma probability_entries_zero_of_total_lt (t : Maisuu) (T : ℕ) (hT : T < 5)
    (k : Fin 6) : probability t T k = 0 := by
  unfold probability
  have h0 : permutation T 5 = 0 := by
    unfold permutation
    rw [if_pos hT]
  rw [h0]
  simp

lemma probability_sum_le_one (t : Maisuu) (T : ℕ) :
    ∑ k : Fin 6, probability t T k ≤ 1 := by
  rcases le_or_lt 5 T with h | h
  · exact (probability_sum_eq_one t T h).le
  · simp [probability_entries_zero_of_total_lt t T h]

lemma rank_new (deck : ℕ) (rest : RestCards) (i : Fin 5) :
    (ProbabilityTable.new deck rest).rank i
      = probability (rest.cards i) ((deck + HANDS_DEFAULT) % 256) := by
  fin_cases i <;> rfl

/-! ## Claim C1 -/

/-- C1 as stated is false: the deck size is a `u8`, and for `num_of_deck =
251` the `u8` total `num_of_deck + 5` wraps to `0` (in debug it panics), so
`Perm(total, 5) = 0` and the Rust `Ratio` division panics; in the `ℚ` model
every entry becomes `0`, and the rank-1 distribution sums to `0`, not `1`.
Explicit input: `RestCounts = [0,0,0,0,0]`, deck size `251`. -/
theorem C1_counterexample :
    ¬ (∑ k : Fin 6, (ProbabilityTable.new 251
        (RestCards.mk5 Maisuu.ZERO Maisuu.ZERO Maisuu.ZERO Maisuu.ZERO Maisuu.ZERO)).rank 0 k
      = 1) := by
  rw [rank_new]
  have hz : ∀ k : Fin 6, probability
      ((RestCards.mk5 Maisuu.ZERO Maisuu.ZERO Maisuu.ZERO Maisuu.ZERO Maisuu.ZERO).cards 0)
      ((251 + HANDS_DEFAULT) % 256) k = 0 := by
    intro k
    exact probability_entries_zero_of_total_lt _ _ (by norm_num [HANDS_DEFAULT]) k
  rw [Finset.sum_congr rfl (fun k _ => hz k)]
  norm_num

/-- C1, amended: for every `RestCounts` and every deck size of at most 250
(so that the `u8` total `deck + 5` does not wrap), each of the five per-rank
distributions of the `ProbabilityTable` has exactly the hypergeometric
entries stated in the spec, with `total_unseen_cards = deck size + 5`, and
sums to exactly 1 under exact rational equality. -/
theorem C1_table_entries_and_sum (deck : ℕ) (hdeck : deck ≤ 250) (rest : RestCards)
    (i : Fin 5) :
    (∀ k : Fin 6, (ProbabilityTable.new deck rest).rank i k
        = hypergeomSpec (rest.cards i).denote deck k.val)
    ∧ ∑ k : Fin 6, (ProbabilityTable.new deck rest).rank i k = 1 := by
  have hmod : (deck + HANDS_DEFAULT) % 256 = deck + 5 := by
    unfold HANDS_DEFAULT
    exact Nat.mod_eq_of_lt (by omega)
  rw [rank_new, hmod]
  constructor
  · intro k
    unfold probability hypergeomSpec
    rw [combination_eq_choose, permutation_eq_descFactorial, permutation_eq_descFactorial,
      permutation_eq_descFactorial]
  · exact probability_sum_eq_one _ _ (by omega)

/-- Witness for `C1_table_entries_and_sum` at deck size 15 and the fresh
`RestCounts` (all 5). -/
theorem C1_witness :
    (15 : ℕ) ≤ 250
    ∧ ((∀ k : Fin 6, (ProbabilityTable.new 15 RestCards.new).rank 2 k
          = hypergeomSpec (RestCards.new.cards 2).denote 15 k.val)
       ∧ ∑ k : Fin 6, (ProbabilityTable.new 15 RestCards.new).rank 2 k = 1) :=
  ⟨by norm_num, C1_table_entries_and_sum 15 (by norm_num) RestCards.new 2⟩

/-! ## Nonnegativity and comparison lemmas for the evaluators -/

lemma access_new (deck : ℕ) (rest : RestCards) (c : CardID) :
    ∃ t : Maisuu, (ProbabilityTable.new deck rest).access c
      = probability t ((deck + HANDS_DEFAULT) % 256) := by
  cases c <;> exact ⟨_, rfl⟩

lemma ite_nonneg (c : Prop) [Decidable c] (x : ℚ) (hx : 0 ≤ x) :
    0 ≤ if c then x else 0 := by
  split
  · exact hx
  · exact le_rfl

lemma ite_lt_le_ite (k h : Maisuu) (x : ℚ) (hx : 0 ≤ x) :
    (if k < h then x else 0) ≤ if k ≤ h then x else 0 := by
  by_cases hkh : k < h
  · rw [if_pos hkh, if_pos (le_of_lt hkh)]
  · rw [if_neg hkh]
    exact ite_nonneg _ _ hx

lemma calc_win_le_calc_attack (m : List Maisuu) (table : ProbabilityTable) (c : CardID)
    (hnn : ∀ q, 0 ≤ table.access c q) (w s : ℚ)
    (hW : calc_win_possibility m table c = .ok w)
    (hS : calc_possibility_attack m table c = .ok s) : w ≤ s := by
  cases hg : m[c.denote]? with
  | none => simp [calc_win_possibility, hg] at hW
  | some h =>
    simp only [calc_win_possibility, hg, List.map_cons, List.map_nil, List.sum_cons,
      List.sum_nil, add_zero, Except.ok.injEq] at hW
    simp only [calc_possibility_attack, hg, List.map_cons, List.map_nil, List.sum_cons,
      List.sum_nil, add_zero, Except.ok.injEq] at hS
    subst hW
    subst hS
    exact add_le_add (ite_lt_le_ite _ _ _ (hnn _))
      (add_le_add (ite_lt_le_ite _ _ _ (hnn _))
        (add_le_add (ite_lt_le_ite _ _ _ (hnn _)) (ite_lt_le_ite _ _ _ (hnn _))))

lemma calc_win_le_one (deck : ℕ) (rest : RestCards) (m : List Maisuu) (c : CardID) (w : ℚ)
    (hW : calc_win_possibility m (ProbabilityTable.new deck rest) c = .ok w) : w ≤ 1 := by
  obtain ⟨t, ht⟩ := access_new deck rest c
  cases hg : m[c.denote]? with
  | none => simp [calc_win_possibility, hg] at hW
  | some h =>
    simp only [calc_win_possibility, hg, List.map_cons, List.map_nil, List.sum_cons,
      List.sum_nil, add_zero, Except.ok.injEq, ht] at hW
    subst hW
    have hsum := probability_sum_le_one t ((deck + HANDS_DEFAULT) % 256)
    rw [Fin.sum_univ_six] at hsum
    have i0 : (0 : Fin 6) = Maisuu.ZERO := rfl
    have i1 : (1 : Fin 6) = Maisuu.ONE := rfl
    have i2 : (2 : Fin 6) = Maisuu.TWO := rfl
    have i3 : (3 : Fin 6) = Maisuu.SOKUSHI := rfl
    rw [i0, i1, i2, i3] at hsum
    have e0 : (if Maisuu.ZERO < h then probability t ((deck + HANDS_DEFAULT) % 256) Maisuu.ZERO else 0)
        ≤ probability t ((deck + HANDS_DEFAULT) % 256) Maisuu.ZERO := by
      by_cases hc : Maisuu.ZERO < h
      · rw [if_pos hc]
      · rw [if_neg hc]
        exact probability_nonneg _ _ _
    have e1 : (if Maisuu.ONE < h then probability t ((deck + HANDS_DEFAULT) % 256) Maisuu.ONE else 0)
        ≤ probability t ((deck + HANDS_DEFAULT) % 256) Maisuu.ONE := by
      by_cases hc : Maisuu.ONE < h
      · rw [if_pos hc]
      · rw [if_neg hc]
        exact probability_nonneg _ _ _
    have e2 : (if Maisuu.TWO < h then probability t ((deck + HANDS_DEFAULT) % 256) Maisuu.TWO else 0)
        ≤ probability t ((deck + HANDS_DEFAULT) % 256) Maisuu.TWO := by
      by_cases hc : Maisuu.TWO < h
      · rw [if_pos hc]
      · rw [if_neg hc]
        exact probability_nonneg _ _ _
    have e3 : (if Maisuu.SOKUSHI < h then probability t ((deck + HANDS_DEFAULT) % 256) Maisuu.SOKUSHI else 0)
        ≤ probability t ((deck + HANDS_DEFAULT) % 256) Maisuu.SOKUSHI := by
      by_cases hc : Maisuu.SOKUSHI < h
      · rw [if_pos hc]
      · rw [if_neg hc]
        exact probability_nonneg _ _ _
    have p4 := probability_nonneg t ((deck + HANDS_DEFAULT) % 256) 4
    have p5 := probability_nonneg t ((deck + HANDS_DEFAULT) % 256) 5
    linarith


/-! ## Helper lemmas about indexing, counting and `CardID.from_u8` -/

lemma idx_eq_entry (r : RestCards) (i : ℕ) (h : i < 5) : r.idx i = .ok (r.entry i) := by
  simp [RestCards.idx, RestCards.entry, h]

lemma count_cards_eq (hands : List CardID) (c : CardID) (h : handCount hands c ≤ 5) :
    count_cards hands c = .ok ⟨handCount hands c, by omega⟩ := by
  simp [count_cards, Maisuu.from_usize, Maisuu.from_u8, h]

lemma from_u8_eq_none (n : ℕ) (h : n = 0 ∨ 5 < n) : CardID.from_u8 n = none := by
  rcases h with h | h
  · subst h
    rfl
  · match n, h with
    | n + 6, _ => rfl

lemma denote_lt_five (c : CardID) (hc : c ≠ CardID.Five) : c.denote < 5 := by
  cases c <;> simp [CardID.denote] at hc ⊢

/-! ## Concrete evaluations shared by C2 and C3 -/

/-- Evaluation of `safe_possibility` for an Attack with rank 3, hand
`[3,3,3]`, `RestCounts = [5,5,3,5,5]`, deck 1: the mis-indexed guard reads
slot 3 (`= 5`), fails, and the sum collapses to `P₃(0) = Perm(3,5)/Perm(6,5)
= 0`. -/
lemma safe_eval_hand333 : safe_possibility 3 restA hand333 (ProbabilityTable.new 1 restA)
    (Action.Attack ⟨CardID.Three, Maisuu.THREE⟩) = .ok (some 0) := by
  have h0 : probability Maisuu.THREE ((1 + HANDS_DEFAULT) % 256) Maisuu.ZERO = 0 := by
    have h : (combination 5 (Maisuu.ZERO).val * permutation (Maisuu.THREE).denote (Maisuu.ZERO).val *
        permutation (((1 + HANDS_DEFAULT) % 256) - (Maisuu.THREE).denote) (5 - (Maisuu.ZERO).val) : ℕ) = 0 := by
      decide
    unfold probability
    rw [h]
    simp
  have hmap : card_map_from_hands [CardID.Three, CardID.Three, CardID.Three] =
      some [Maisuu.ZERO, Maisuu.ZERO, Maisuu.THREE, Maisuu.ZERO, Maisuu.ZERO] := by decide
  have hcalc : calc_possibility_attack [Maisuu.ZERO, Maisuu.ZERO, Maisuu.THREE, Maisuu.ZERO, Maisuu.ZERO]
      (ProbabilityTable.new 1 restA) CardID.Three = .ok 0 := by
    simp +decide [calc_possibility_attack, CardID.denote, ProbabilityTable.new,
      ProbabilityTable.access, restA, RestCards.mk5, h0]
  have hidx : restA.idx 3 = .ok Maisuu.FIVE := by decide
  simp +decide [safe_possibility, CardID.denote, count_cards, handCount, hand333,
    Maisuu.from_usize, Maisuu.from_u8, hidx, hmap, hcalc]

/-- Evaluation of `win_poss_attack` on the same state: the strict guard also
fails and the strict sum is likewise 0. -/
lemma win_eval_hand333 : win_poss_attack restA hand333 (ProbabilityTable.new 1 restA)
    (Action.Attack ⟨CardID.Three, Maisuu.THREE⟩) = .ok (some 0) := by
  have hmap : card_map_from_hands [CardID.Three, CardID.Three, CardID.Three] =
      some [Maisuu.ZERO, Maisuu.ZERO, Maisuu.THREE, Maisuu.ZERO, Maisuu.ZERO] := by decide
  have hcalc : calc_win_possibility [Maisuu.ZERO, Maisuu.ZERO, Maisuu.THREE, Maisuu.ZERO, Maisuu.ZERO]
      (ProbabilityTable.new 1 restA) CardID.Three = .ok 0 := by
    simp +decide [calc_win_possibility, CardID.denote]
  have hidx : restA.idx 3 = .ok Maisuu.FIVE := by decide
  simp +decide [win_poss_attack, CardID.denote, count_cards, handCount, hand333,
    Maisuu.from_usize, Maisuu.from_u8, hidx, hmap, hcalc]

/-! ## Claim C2 -/

/-- C2 is a code bug: `safe_possibility` indexes `rest_cards[card.denote()]`
and the count map `hands[card.denote()]` with the 1-based card number instead
of `denote() - 1` (contrast `RestCards::used_card`, which uses `i - 1`, and
the doc comment of `calc_possibility_attack`).  At the claim's own example —
hand `[3,3,3]`, three unseen rank-3 copies (`RestCounts = [5,5,3,5,5]`), deck
1, attacking with rank 3 — the claim's guard `RestCounts[3] ≤ countInHand 3`
holds (first conjunct), so the claim demands safety exactly 1, but the code
returns 0 (second conjunct; it reads the rank-4 slots instead).  For a rank-5
attack the same indexing even panics out of bounds. -/
theorem C2_guard_reads_wrong_slot :
    (restA.entry 2).denote ≤ handCount hand333 CardID.Three
    ∧ safe_possibility 3 restA hand333 (ProbabilityTable.new 1 restA)
        (Action.Attack ⟨CardID.Three, Maisuu.THREE⟩) = .ok (some 0) :=
  ⟨by decide, safe_eval_hand333⟩

/-! ## Claim C3 -/

/-- C3: for every deck size and `RestCounts` pair used to build the table,
every `RestCounts`, hand and Attack action, whenever both evaluators return a
value (`.ok (some _)`: no panic, well-formed hand), the value of
`win_poss_attack` is at most the value of `safe_possibility`. -/
theorem C3_win_le_safe (deck distance : ℕ) (rest2 rest : RestCards) (hands : List CardID)
    (atk : Attack) (w s : ℚ)
    (hw : win_poss_attack rest hands (ProbabilityTable.new deck rest2) (Action.Attack atk)
      = .ok (some w))
    (hs : safe_possibility distance rest hands (ProbabilityTable.new deck rest2)
      (Action.Attack atk) = .ok (some s)) :
    w ≤ s := by
  have hnn : ∀ q, 0 ≤ (ProbabilityTable.new deck rest2).access atk.card q := by
    intro q
    obtain ⟨t, ht⟩ := access_new deck rest2 atk.card
    rw [ht]
    exact probability_nonneg _ _ _
  cases h1 : rest.idx atk.card.denote with
  | error e => simp [win_poss_attack, h1] at hw
  | ok rc =>
    cases h2 : count_cards hands atk.card with
    | error e => simp [win_poss_attack, h1, h2] at hw
    | ok cnt =>
      simp only [win_poss_attack, h1, h2] at hw
      simp only [safe_possibility, h1, h2] at hs
      by_cases h3 : rc < cnt
      · rw [if_pos h3] at hw
        rw [if_pos (le_of_lt h3)] at hs
        simp only [Except.ok.injEq, Option.some.injEq] at hw hs
        rw [← hw, ← hs]
      · rw [if_neg h3] at hw
        cases h5 : card_map_from_hands hands with
        | none => simp only [h5] at hw; simp at hw
        | some m =>
          simp only [h5] at hw
          cases h6 : calc_win_possibility m (ProbabilityTable.new deck rest2) atk.card with
          | error e => simp only [h6] at hw; simp at hw
          | ok w' =>
            simp only [h6, Except.ok.injEq, Option.some.injEq] at hw
            by_cases h4 : rc ≤ cnt
            · rw [if_pos h4] at hs
              simp only [Except.ok.injEq, Option.some.injEq] at hs
              rw [← hw, ← hs]
              exact calc_win_le_one deck rest2 m atk.card w' h6
            · rw [if_neg h4] at hs
              simp only [h5] at hs
              cases h7 : calc_possibility_attack m (ProbabilityTable.new deck rest2) atk.card with
              | error e => simp only [h7] at hs; simp at hs
              | ok s' =>
                simp only [h7, Except.ok.injEq, Option.some.injEq] at hs
                rw [← hw, ← hs]
                exact calc_win_le_calc_attack m (ProbabilityTable.new deck rest2) atk.card
                  hnn w' s' h6 h7

/-- Witness for `C3_win_le_safe`: hand `[3,3,3]`, `RestCounts = [5,5,3,5,5]`,
deck 1, attacking with rank 3 — both evaluators return 0, and 0 ≤ 0. -/
theorem C3_witness :
    win_poss_attack restA hand333 (ProbabilityTable.new 1 restA)
        (Action.Attack ⟨CardID.Three, Maisuu.THREE⟩) = .ok (some 0)
    ∧ safe_possibility 3 restA hand333 (ProbabilityTable.new 1 restA)
        (Action.Attack ⟨CardID.Three, Maisuu.THREE⟩) = .ok (some 0)
    ∧ (0 : ℚ) ≤ 0 :=
  ⟨win_eval_hand333, safe_eval_hand333,
    C3_win_le_safe 1 3 restA restA hand333 ⟨CardID.Three, Maisuu.THREE⟩ 0 0
      win_eval_hand333 safe_eval_hand333⟩

/-! ## Claim C4 -/

/-- C4 is a code bug: `hands_from_card_map` pairs `CardID::from_u8(i)` with
`card_map.get(i)` for `i = 0..4`, so slot 0 is ignored, rank 5 is never
produced, and every rank is expanded from the next rank's count.  The claimed
round-trip fails even on the hand `[1,2,3,4,5]`: the forward conversion
succeeds (first conjunct) but the way back returns `None` (second conjunct;
only 4 cards are produced), contradicting the function's own doc comment
("turns a number-to-count table into a hand"). -/
theorem C4_roundtrip_fails :
    card_map_from_hands [CardID.One, CardID.Two, CardID.Three, CardID.Four, CardID.Five]
      = some mapOnes
    ∧ hands_from_card_map mapOnes = none :=
  ⟨by decide, by decide⟩

/-! ## Claim C5 -/

/-- C5's counterexample: at distance 13, hand `[1]`, fresh `RestCounts`, the
Forward-rank-1 move has implied opponent rank 12 ∉ {1..5}, yet
`safe_possibility` returns `Some 0` — a present result — rather than yielding
no result as the claim states. -/
theorem C5_counterexample :
    moveWrapTarget 13 ⟨CardID.One, Direction.Forward⟩ = 12
    ∧ safe_possibility 13 RestCards.new [CardID.One] (ProbabilityTable.new 0 RestCards.new)
        (Action.Move ⟨CardID.One, Direction.Forward⟩) = .ok (some 0) :=
  ⟨by decide, by decide⟩

/-- C5, amended: for a Move whose wrapped implied opponent rank falls outside
{1..5}: for ranks 1–4 (with a well-formed count for the moved rank and the
mis-indexed safety guard not firing) `safe_possibility` returns `Some 0` — not
"no result" — which the policy's `≥ 3/4` threshold rejects; and for rank 5 it
panics ("out of bound") on `rest_cards[5]` before reaching the range check,
so the computation is not panic-free either. -/
theorem C5_out_of_range_move (distance : ℕ) (rest : RestCards) (hands : List CardID)
    (table : ProbabilityTable) (mv : Movement)
    (hwf : handCount hands mv.card ≤ 5)
    (himp : moveWrapTarget distance mv = 0 ∨ 5 < moveWrapTarget distance mv) :
    (mv.card = CardID.Five →
      safe_possibility distance rest hands table (Action.Move mv) = .error "out of bound")
    ∧ (mv.card ≠ CardID.Five → ¬ safeMoveGuard distance rest hands mv →
      safe_possibility distance rest hands table (Action.Move mv) = .ok (some 0)) := by
  obtain ⟨c, dir⟩ := mv
  replace hwf : handCount hands c ≤ 5 := hwf
  cases dir with
  | Forward =>
    constructor
    · intro hc
      replace hc : c = CardID.Five := hc
      subst hc
      simp [safe_possibility, RestCards.idx, CardID.denote]
    · intro hc hguard
      have hlt : c.denote < 5 := denote_lt_five c hc
      have hgn : ¬ (rest.entry c.denote ≤ Maisuu.saturating_sub ⟨handCount hands c, by omega⟩
          (if check_twice distance c.denote then Maisuu.ONE else Maisuu.ZERO)) := by
        intro hle
        apply hguard
        show (rest.entry c.denote).denote ≤
          handCount hands c - (if check_twice distance c.denote then 1 else 0)
        rw [Fin.le_def] at hle
        simp only [Maisuu.saturating_sub] at hle
        by_cases hd : check_twice distance c.denote
        · simpa [hd, Maisuu.ONE, Maisuu.denote] using hle
        · simpa [hd, Maisuu.ZERO, Maisuu.denote] using hle
      simp only [safe_possibility, idx_eq_entry rest c.denote hlt,
        count_cards_eq hands c hwf,
        from_u8_eq_none ((distance + 256 - c.denote) % 256) (by simpa [moveWrapTarget] using himp)]
      rw [if_neg hgn]
  | Back =>
    constructor
    · intro hc
      replace hc : c = CardID.Five := hc
      subst hc
      simp [safe_possibility, RestCards.idx, CardID.denote]
    · intro hc hguard
      have hlt : c.denote < 5 := denote_lt_five c hc
      have hgn : ¬ (rest.entry c.denote ≤ (⟨handCount hands c, by omega⟩ : Maisuu)) := by
        intro hle
        apply hguard
        show (rest.entry c.denote).denote ≤ handCount hands c
        rw [Fin.le_def] at hle
        exact hle
      simp only [safe_possibility, idx_eq_entry rest c.denote hlt,
        count_cards_eq hands c hwf,
        from_u8_eq_none ((distance + c.denote) % 256) (by simpa [moveWrapTarget] using himp)]
      rw [if_neg hgn]

/-- Witness for `C5_out_of_range_move`: distance 13, fresh `RestCounts`, hand
`[1]`, Forward rank 1 (implied rank 12). -/
theorem C5_witness :
    handCount [CardID.One] CardID.One ≤ 5
    ∧ (moveWrapTarget 13 ⟨CardID.One, Direction.Forward⟩ = 0 ∨
        5 < moveWrapTarget 13 ⟨CardID.One, Direction.Forward⟩)
    ∧ ¬ safeMoveGuard 13 RestCards.new [CardID.One] ⟨CardID.One, Direction.Forward⟩
    ∧ safe_possibility 13 RestCards.new [CardID.One] (ProbabilityTable.new 0 RestCards.new)
        (Action.Move ⟨CardID.One, Direction.Forward⟩) = .ok (some 0) :=
  ⟨by decide, by decide, by decide,
    (C5_out_of_range_move 13 RestCards.new [CardID.One] (ProbabilityTable.new 0 RestCards.new)
      ⟨CardID.One, Direction.Forward⟩ (by decide) (by decide)).2 (by decide) (by decide)⟩

/-! ## Claim C6 -/

/-- C6 is a code bug: `count_4and5` sums slots 2, 3 and 4 — the counts of
ranks 3, 4 and 5 — although its name and doc comment say it counts the 4s and
5s.  With hand counts `[0,0,2,0,0]` (two rank-3 cards, no 4s or 5s) at
distance 12, the gate computes `count_4and5 = 2` and allows ranks 4 and 5,
whereas the claim (distance < 12 is false, held 4s+5s = 0 < 2) requires both
to be disallowed. -/
theorem C6_gate_counts_rank3 :
    count_4and5 mapTwo3 = 2
    ∧ (AcceptableNumbers.new mapTwo3 RestCards.new 12).idx 3 = true
    ∧ (AcceptableNumbers.new mapTwo3 RestCards.new 12).idx 4 = true :=
  ⟨by decide, by decide, by decide⟩

/-! ## Claim C7 -/

/-- C7 is a code bug: `middle_move` applies `?` to `should_go_2_7(..)`, so a
missing positional candidate aborts the whole function even when the attack
qualified.  At distance 3 with hand `[3,3,3]` and `RestCounts = [5,5,5,2,5]`
the attack's win probability is exactly 1 (first conjunct; `≥ 3/4`, so by the
claim the Attack must be returned and take priority), yet `middle_move`
returns `None` (second conjunct).  Separately, `middle_move` panics at
distance 0 (`CardID::from_u8(0).expect`) and at distance 5 (`rest_cards[5]`
inside `win_poss_attack`). -/
theorem C7_attack_dropped :
    win_poss_attack restB hand333 (ProbabilityTable.new 2 restB)
        (Action.Attack ⟨CardID.Three, Maisuu.THREE⟩) = .ok (some 1)
    ∧ middle_move hand333 3 restB (ProbabilityTable.new 2 restB) = .ok none := by
  have hwin : win_poss_attack restB hand333 (ProbabilityTable.new 2 restB)
      (Action.Attack ⟨CardID.Three, Maisuu.THREE⟩) = .ok (some 1) := by
    simp +decide [win_poss_attack, CardID.denote, count_cards, handCount, hand333,
      Maisuu.from_usize, Maisuu.from_u8, RestCards.idx, restB, RestCards.mk5]
  refine ⟨hwin, ?_⟩
  have hmap : card_map_from_hands [CardID.Three, CardID.Three, CardID.Three] =
      some [Maisuu.ZERO, Maisuu.ZERO, Maisuu.THREE, Maisuu.ZERO, Maisuu.ZERO] := by decide
  have hsg : should_go_2_7 [Maisuu.ZERO, Maisuu.ZERO, Maisuu.THREE, Maisuu.ZERO, Maisuu.ZERO] 3
      restB (ProbabilityTable.new 2 restB) = none := by decide
  have hq : (3 : ℚ) / 4 ≤ 1 := by norm_num
  simp +decide [middle_move, hand333, CardID.from_u8, hmap, hwin, hsg, hq, Except.bind,
    Except.map]

/-! ## Claim C8 -/

/-- C8 is a code bug: `last_move` reads the attack quantity from
`hands[distance]` (one past the `hands[distance - 1]` used for `can_attack`),
so at distance 5 — the acting player holding a rank-5 card, one unseen card
in total (`RestCounts = [0,0,0,0,1]`, `parried = 0`) — it panics with an
out-of-bounds index instead of returning `Some 5` or `None`, contradicting
its own doc comment ("Panics: I don't think it does"). -/
theorem C8_last_move_panics :
    last_move restLast mapOnes (5, 0) 0 (ProbabilityTable.new 0 restLast)
      = .error "index out of bounds" := by decide

/-! ## Claim C9 -/

/-- C9's counterexample: hand counts `[1,0,0,0,0]` at distance 13 with fresh
`RestCounts`.  The average rank is 1/5 < 3 and no rank passes the scan, so
the claim requires rank 2 Forward, but the code returns rank 5 Forward (the
fallback additionally requires a rank-2 card to be held). -/
theorem C9_counterexample :
    calc_ave mapOne1 < 3
    ∧ (∀ j, j < 5 → ¬ initialQualifies mapOne1 (AcceptableNumbers.new mapOne1 RestCards.new 13) j)
    ∧ initial_move mapOne1 13 (AcceptableNumbers.new mapOne1 RestCards.new 13)
        = .ok (Action.Move ⟨CardID.Five, Direction.Forward⟩) := by
  refine ⟨?_, by decide, ?_⟩
  · have hsum : ((List.range 5).map (fun i => (mapOne1.getD i Maisuu.ZERO).denote)).sum = 1 := by
      decide
    unfold calc_ave
    rw [hsum]
    norm_num
  · have hfind : (List.range 5).reverse.find?
        (fun i => (AcceptableNumbers.new mapOne1 RestCards.new 13).idx i &&
          decide (0 < (mapOne1.getD i Maisuu.ZERO).denote)) = none := by decide
    have hc2 : ¬ (0 < ((mapOne1.getD (Maisuu.TWO.denote - 1) Maisuu.ZERO).denote)) := by decide
    unfold initial_move
    rw [if_neg (by omega)]
    simp only [hfind]
    rw [if_neg (fun hand => hc2 hand.2)]
    rfl

/-- C9, amended: `initial_move` fails with a reason exactly when
`distance ≤ 12` (first two clauses); otherwise it scans slots 4..0 and plays
the first gate-allowed, held rank Forward (third clause); if none qualifies
it plays rank 2 Forward when the average rank is `< 3` AND a rank-2 card is
held, and rank 5 Forward otherwise (fourth clause). -/
theorem C9_initial_move (hands : List Maisuu) (distance : ℕ) (acc : AcceptableNumbers) :
    (distance ≤ 12 →
      initial_move hands distance acc
        = .error "cannot use this function when distance is at most 12")
    ∧ (12 < distance → ∃ a, initial_move hands distance acc = .ok a)
    ∧ (12 < distance → ∀ j, j < 5 → initialQualifies hands acc j →
        (∀ k, j < k → k < 5 → ¬ initialQualifies hands acc k) →
        ∀ c, CardID.from_u8 (j + 1) = some c →
        initial_move hands distance acc = .ok (Action.Move ⟨c, Direction.Forward⟩))
    ∧ (12 < distance → (∀ j, j < 5 → ¬ initialQualifies hands acc j) →
        ((calc_ave hands < 3 ∧ 0 < (hands.getD 1 Maisuu.ZERO).denote →
            initial_move hands distance acc = .ok (Action.Move ⟨CardID.Two, Direction.Forward⟩))
          ∧ (¬ (calc_ave hands < 3 ∧ 0 < (hands.getD 1 Maisuu.ZERO).denote) →
            initial_move hands distance acc
              = .ok (Action.Move ⟨CardID.Five, Direction.Forward⟩)))) := by
  have hrev : (List.range 5).reverse = [4, 3, 2, 1, 0] := by decide
  have hptrue : ∀ k, initialQualifies hands acc k →
      (acc.idx k && decide (0 < (hands.getD k Maisuu.ZERO).denote)) = true := by
    intro k hk
    rw [hk.1, Bool.true_and]
    exact decide_eq_true hk.2
  have hpfalse : ∀ k, ¬ initialQualifies hands acc k →
      (acc.idx k && decide (0 < (hands.getD k Maisuu.ZERO).denote)) = false := by
    intro k hk
    rw [Bool.eq_false_iff]
    intro ht
    rw [Bool.and_eq_true] at ht
    exact hk ⟨ht.1, of_decide_eq_true ht.2⟩
  have h21 : Maisuu.TWO.denote - 1 = 1 := rfl
  refine ⟨?_, ?_, ?_, ?_⟩
  · intro h12
    unfold initial_move
    rw [if_pos h12]
  · intro h12
    cases hfind : (List.range 5).reverse.find?
        (fun i => acc.idx i && decide (0 < (hands.getD i Maisuu.ZERO).denote)) with
    | some i =>
      have hmem : i ∈ (List.range 5).reverse := List.mem_of_find?_eq_some hfind
      have hi5 : i < 5 := by
        rw [List.mem_reverse, List.mem_range] at hmem
        exact hmem
      have hex : ∃ c, CardID.from_u8 (i + 1) = some c := by
        interval_cases i <;> exact ⟨_, rfl⟩
      obtain ⟨c, hc⟩ := hex
      refine ⟨Action.Move ⟨c, Direction.Forward⟩, ?_⟩
      unfold initial_move
      rw [if_neg (by omega)]
      simp only [hfind, hc]
    | none =>
      by_cases hcond : calc_ave hands < 3 ∧ 0 < (hands.getD (Maisuu.TWO.denote - 1) Maisuu.ZERO).denote
      · refine ⟨Action.Move ⟨CardID.Two, Direction.Forward⟩, ?_⟩
        unfold initial_move
        rw [if_neg (by omega)]
        simp only [hfind]
        rw [if_pos hcond]
        rfl
      · refine ⟨Action.Move ⟨CardID.Five, Direction.Forward⟩, ?_⟩
        unfold initial_move
        rw [if_neg (by omega)]
        simp only [hfind]
        rw [if_neg hcond]
        rfl
  · intro h12 j hj hq hmax c hc
    have hfind : (List.range 5).reverse.find?
        (fun i => acc.idx i && decide (0 < (hands.getD i Maisuu.ZERO).denote)) = some j := by
      rw [hrev]
      interval_cases j
      · simp only [List.find?, hpfalse 4 (hmax 4 (by omega) (by omega)),
          hpfalse 3 (hmax 3 (by omega) (by omega)), hpfalse 2 (hmax 2 (by omega) (by omega)),
          hpfalse 1 (hmax 1 (by omega) (by omega)), hptrue 0 hq]
      · simp only [List.find?, hpfalse 4 (hmax 4 (by omega) (by omega)),
          hpfalse 3 (hmax 3 (by omega) (by omega)), hpfalse 2 (hmax 2 (by omega) (by omega)),
          hptrue 1 hq]
      · simp only [List.find?, hpfalse 4 (hmax 4 (by omega) (by omega)),
          hpfalse 3 (hmax 3 (by omega) (by omega)), hptrue 2 hq]
      · simp only [List.find?, hpfalse 4 (hmax 4 (by omega) (by omega)), hptrue 3 hq]
      · simp only [List.find?, hptrue 4 hq]
    unfold initial_move
    rw [if_neg (by omega)]
    simp only [hfind, hc]
  · intro h12 hnone
    have hfind : (List.range 5).reverse.find?
        (fun i => acc.idx i && decide (0 < (hands.getD i Maisuu.ZERO).denote)) = none := by
      rw [hrev]
      simp only [List.find?, hpfalse 4 (hnone 4 (by omega)), hpfalse 3 (hnone 3 (by omega)),
        hpfalse 2 (hnone 2 (by omega)), hpfalse 1 (hnone 1 (by omega)),
        hpfalse 0 (hnone 0 (by omega))]
    constructor
    · intro hcond
      unfold initial_move
      rw [if_neg (by omega)]
      simp only [hfind, h21]
      rw [if_pos hcond]
      rfl
    · intro hcond
      unfold initial_move
      rw [if_neg (by omega)]
      simp only [hfind, h21]
      rw [if_neg hcond]
      rfl

/-- Witness for `C9_initial_move`: at distance 10 the function fails with the
inapplicable-phase reason. -/
theorem C9_witness :
    (10 : ℕ) ≤ 12
    ∧ initial_move mapOne1 10 (AcceptableNumbers.new mapOne1 RestCards.new 10)
        = .error "cannot use this function when distance is at most 12" :=
  ⟨by norm_num,
    (C9_initial_move mapOne1 10 (AcceptableNumbers.new mapOne1 RestCards.new 10)).1 (by norm_num)⟩

/-! ## Claim C10 -/

/-- C10: whenever `hands_from_card_map` returns a hand it has exactly 5
cards, and any count table whose entries sum to fewer than 5 yields `None` —
failure is not limited to totals exceeding 5. -/
theorem C10_hands_from_card_map (m : List Maisuu) :
    (∀ h, hands_from_card_map m = some h → h.length = 5)
    ∧ ((m.map Maisuu.denote).sum < 5 → hands_from_card_map m = none) := by
  constructor
  · intro h hh
    simp only [hands_from_card_map] at hh
    split at hh
    · next hlen =>
      rw [Option.some.injEq] at hh
      rw [← hh]
      exact hlen
    · exact absurd hh (by simp)
  · intro hsum
    have hr : List.range 5 = [0, 1, 2, 3, 4] := by decide
    simp only [hands_from_card_map, hr]
    rw [if_neg]
    match m, hsum with
    | [], _ => decide
    | [a], hsum =>
      simp [CardID.from_u8]
    | [a, b], hsum =>
      simp only [Maisuu.denote, List.map_cons, List.map_nil, List.sum_cons, List.sum_nil] at hsum
      simp [CardID.from_u8, Maisuu.denote]
      omega
    | [a, b, c], hsum =>
      simp only [Maisuu.denote, List.map_cons, List.map_nil, List.sum_cons, List.sum_nil] at hsum
      simp [CardID.from_u8, Maisuu.denote]
      omega
    | [a, b, c, d], hsum =>
      simp only [Maisuu.denote, List.map_cons, List.map_nil, List.sum_cons, List.sum_nil] at hsum
      simp [CardID.from_u8, Maisuu.denote]
      omega
    | a :: b :: c :: d :: e :: rest, hsum =>
      simp only [Maisuu.denote, List.map_cons, List.sum_cons] at hsum
      have hrest : 0 ≤ (rest.map Maisuu.denote).sum := Nat.zero_le _
      simp [CardID.from_u8, Maisuu.denote]
      omega

/-- Witness for `C10_hands_from_card_map`: the count table `[1,0,0,0,0]` sums
to 1 < 5 and yields `None`. -/
theorem C10_witness :
    ((mapOne1.map Maisuu.denote).sum < 5) ∧ hands_from_card_map mapOne1 = none :=
  ⟨by decide, (C10_hands_from_card_map mapOne1).2 (by decide)⟩

end EnGarde
